import Mathlib

/-!
Shallow embedding of the repository's two utility modules
(`src/src/utils/notificationService.js`): the validation toolkit
(email predicates, bulk email parsing) and the notification facade with
its real-time manager. Strings are modelled as `List Char`; the injected
API client's outcome is passed in as an `Except` value; fallible JS code
is modelled with explicit result types.
-/

namespace ProjMgmt

/-! ## Character and string helpers (JS semantics on ASCII data) -/

/-- Characters matched by the JS regex class `\s` (the ASCII ones; the
inputs in scope contain no exotic Unicode whitespace). `Char.ofNat 11`
is `\v` and `Char.ofNat 12` is `\f`. -/
def isSpaceChar (c : Char) : Bool :=
  c == ' ' || c == '\t' || c == '\n' || c == '\r' ||
  c == Char.ofNat 11 || c == Char.ofNat 12

/-- JS `String.prototype.trim`: remove leading and trailing whitespace. -/
def listTrim (l : List Char) : List Char :=
  ((l.dropWhile isSpaceChar).reverse.dropWhile isSpaceChar).reverse

/-- JS `String.prototype.toLowerCase` on the ASCII data in scope. -/
def listToLower (l : List Char) : List Char :=
  l.map Char.toLower

/-- JS `String.prototype.split` with a single-character separator:
every occurrence separates, and empty chunks are kept
(`"a@b@c".split('@')` is `["a","b","c"]`, `"".split('@')` is `[""]`). -/
def splitOnCharAux (sep : Char) : List Char → List Char → List (List Char)
  | [], acc => [acc.reverse]
  | x :: xs, acc =>
    if x == sep then acc.reverse :: splitOnCharAux sep xs []
    else splitOnCharAux sep xs (x :: acc)

/-- See `splitOnCharAux`. -/
def splitOnChar (sep : Char) (l : List Char) : List (List Char) :=
  splitOnCharAux sep l []

/-! ## Email validation (`isValidEmail`, `isAllowedDomain`) -/

/-- A character allowed by the regex class `[^\s@]`. -/
def okEmailChar (c : Char) : Bool :=
  !isSpaceChar c && c != '@'

/-- `isValidEmail` tests the regex `^[^\s@]+@[^\s@]+\.[^\s@]+$`: one `@`
with a non-empty whitespace-free local part before it, and after it a
domain of whitespace-free characters that can be written as
`x ++ '.' ++ y` with `x` and `y` non-empty — that is, the domain has a
dot that is neither its first nor its last character. -/
def isValidEmail (email : List Char) : Bool :=
  match splitOnChar '@' email with
  | [localPart, domain] =>
    !localPart.isEmpty && localPart.all okEmailChar &&
    domain.all okEmailChar && ((domain.drop 1).dropLast).contains '.'
  | _ => false

/-- `email.split('@')[1]?.toLowerCase()`: the chunk after the first `@`,
lower-cased. The `[]` default stands for JS `undefined`; `isAllowedDomain`
only consults it after `isValidEmail` has passed, so the chunk exists. -/
def emailDomain (email : List Char) : List Char :=
  listToLower ((splitOnChar '@' email).getD 1 [])

/-- `isAllowedDomain(email, allowedDomains)`: false for a falsy or
syntactically invalid email; true when the allow-list is empty; otherwise
true iff the email's domain equals some entry (lower-cased) or ends with
`'.' + entry`. The JS `!email` guard (empty string) is subsumed by
`isValidEmail` rejecting the empty string. -/
def isAllowedDomain (email : List Char) (allowedDomains : List (List Char)) : Bool :=
  if email.isEmpty || !isValidEmail email then false
  else if allowedDomains.isEmpty then true
  else
    allowedDomains.any (fun domain =>
      emailDomain email == listToLower domain ||
      ('.' :: listToLower domain).isSuffixOf (emailDomain email))

/-! ## Bulk email parsing (`parseBulkEmails`) -/

/-- A character of the JS regex class `[,;\n\s]`. -/
def isBulkDelim (c : Char) : Bool :=
  c == ',' || c == ';' || c == '\n' || isSpaceChar c

/-- `input.split(/[,;\n\s]+/)`: split on maximal runs of delimiter
characters. (The JS split can additionally yield an empty first or last
chunk; `bulkTokens` filters empty chunks out right after, so dropping
them here is observationally the same.) -/
def splitTokensAux : List Char → List Char → List (List Char)
  | [], acc => if acc.isEmpty then [] else [acc.reverse]
  | x :: xs, acc =>
    if isBulkDelim x then
      if acc.isEmpty then splitTokensAux xs []
      else acc.reverse :: splitTokensAux xs []
    else splitTokensAux xs (x :: acc)

/-- See `splitTokensAux`. -/
def splitTokens (l : List Char) : List (List Char) :=
  splitTokensAux l []

/-- The token pipeline of `parseBulkEmails`: split on delimiter runs,
trim and lower-case each token, drop empty tokens. -/
def bulkTokens (input : List Char) : List (List Char) :=
  ((splitTokens input).map (fun e => listToLower (listTrim e))).filter
    (fun e => !e.isEmpty)

/-- The four buckets `parseBulkEmails` returns. -/
structure BulkResults where
  valid : List (List Char)
  invalid : List (List Char)
  duplicates : List (List Char)
  domainRestricted : List (List Char)
deriving DecidableEq, Repr

/-- The `emails.forEach` loop of `parseBulkEmails`, carrying the `seen`
set (as a list) through the traversal. Each push-to-the-end of the JS
loop becomes a cons in front of the recursive result, which builds the
same bucket lists in the same order. Only the final `else` branch adds
the email to `seen`. -/
def classifyEmails (allowedDomains : List (List Char)) (seen : List (List Char)) :
    List (List Char) → BulkResults
  | [] => ⟨[], [], [], []⟩
  | e :: rest =>
    if !isValidEmail e then
      let r := classifyEmails allowedDomains seen rest
      { r with invalid := e :: r.invalid }
    else if seen.contains e then
      let r := classifyEmails allowedDomains seen rest
      { r with duplicates := e :: r.duplicates }
    else if !isAllowedDomain e allowedDomains && !allowedDomains.isEmpty then
      let r := classifyEmails allowedDomains seen rest
      { r with domainRestricted := e :: r.domainRestricted }
    else
      let r := classifyEmails allowedDomains (e :: seen) rest
      { r with valid := e :: r.valid }

/-- `parseBulkEmails(input, allowedDomains)`. The JS guard `if (!input)`
(null or empty string) is modelled by the `isEmpty` test; a null
allow-list is modelled as `[]`. -/
def parseBulkEmails (input : List Char) (allowedDomains : List (List Char)) :
    BulkResults :=
  if input.isEmpty then ⟨[], [], [], []⟩
  else classifyEmails allowedDomains [] (bulkTokens input)

/-! ## Batch email validation (`normalizeEmails`, `validateEmailBatch`) -/

/-- The argument of `normalizeEmails`: a comma-joined string, an array
whose elements may or may not be strings (a non-string element is mapped
to the empty string by the JS code), or anything else (null, a number,
an object), which yields the empty list. -/
inductive EmailsInput where
  | ofString (s : List Char)
  | ofArray (l : List (Option (List Char)))
  | other
deriving Repr

/-- `normalizeEmails(emails)`: trim, lower-case, and keep only non-empty
syntactically valid emails. The JS guard `if (!emails) return []` also
fires for the empty string, which the string branch sends to the same
result (its only token trims to empty and is filtered out). -/
def normalizeEmails (emails : EmailsInput) : List (List Char) :=
  match emails with
  | .other => []
  | .ofString s =>
    ((splitOnChar ',' s).map (fun e => listToLower (listTrim e))).filter
      (fun e => !e.isEmpty && isValidEmail e)
  | .ofArray l =>
    (l.map (fun e =>
      match e with
      | some s => listToLower (listTrim s)
      | none => [])).filter (fun e => !e.isEmpty && isValidEmail e)

/-- The three buckets `validateEmailBatch` returns. -/
structure BatchResults where
  valid : List (List Char)
  invalid : List (List Char)
  domainRestricted : List (List Char)
deriving DecidableEq, Repr

/-- The `normalizedEmails.forEach` loop of `validateEmailBatch` (push at
the end of the JS loop becomes cons in front of the recursive result;
note there is no `seen` set and no `allowedDomains.length > 0` guard
here, unlike `classifyEmails`). -/
def classifyBatch (allowedDomains : List (List Char)) :
    List (List Char) → BatchResults
  | [] => ⟨[], [], []⟩
  | e :: rest =>
    let r := classifyBatch allowedDomains rest
    if !isValidEmail e then { r with invalid := e :: r.invalid }
    else if !isAllowedDomain e allowedDomains then
      { r with domainRestricted := e :: r.domainRestricted }
    else { r with valid := e :: r.valid }

/-- `validateEmailBatch(emails, allowedDomains)`. -/
def validateEmailBatch (emails : EmailsInput) (allowedDomains : List (List Char)) :
    BatchResults :=
  classifyBatch allowedDomains (normalizeEmails emails)

/-! ## Notification facade

Each facade function awaits one call on the injected API client
(`realApiService.notifications.*`); the outcome of that call is passed
in as an `Except JsError (ApiResult _)` value. The `try/catch` around
the call becomes a `match` on that value, and the returned JS object
literal becomes an `Envelope`. -/

/-- A thrown JS error exposing a `message` (the only shape the facade
reads, per the API-client contract). -/
structure JsError where
  message : String
deriving DecidableEq, Repr

/-- What a successful API call resolves to: JS null/undefined, the raw
payload itself, or an object wrapping the payload in a `data` field (the
payloads in scope — arrays and objects — are truthy JS values). -/
inductive ApiResult (α : Type) where
  | nullish
  | raw (v : α)
  | wrapped (v : α)
deriving DecidableEq, Repr

/-- A field of a returned JS object: missing from the object, present
with a null/undefined value, or present with a payload. -/
inductive Field (α : Type) where
  | absent
  | nullish
  | val (a : α)
deriving DecidableEq, Repr

/-- The value of a `Field`, with a default for absent/nullish (arrays
and objects are truthy, so `field || dflt` keeps a `val` payload even
when it is the empty list). -/
def fieldValD {α : Type} (f : Field α) (dflt : α) : α :=
  match f with
  | .val a => a
  | _ => dflt

/-- The result envelope every facade call returns. `data` is a `Field`
because some failure paths omit the key entirely; `error` is `none` for
JS null. -/
structure Envelope (α : Type) where
  success : Bool
  data : Field α
  error : Option String
deriving DecidableEq, Repr

/-- `result?.data || result`: the unwrap used by the non-list facade
operations. -/
def unwrapResult {α : Type} : ApiResult α → Field α
  | .nullish => .nullish
  | .raw v => .val v
  | .wrapped v => .val v

/-- `result?.data || result || []`: the unwrap used by `getNotifications`. -/
def unwrapListResult {α : Type} : ApiResult (List α) → List α
  | .nullish => []
  | .raw v => v
  | .wrapped v => v

/-- A notification, concretely the fields this layer reads: `type`, the
optional `notification_metadata` object, and the `read` flag. -/
structure NotificationMetadata where
  isWelcome : Bool
deriving DecidableEq, Repr

/-- See `NotificationMetadata`. -/
structure Notification where
  type : String
  notification_metadata : Option NotificationMetadata
  read : Bool
deriving DecidableEq, Repr

/-- `getNotifications(filters)`: on success a success envelope whose
`data` is the unwrapped list; on a thrown error a failure envelope with
`data: []` and the error's message. (The `filters` argument only shapes
the API call, which is injected here.) -/
def getNotifications (api : Except JsError (ApiResult (List Notification))) :
    Envelope (List Notification) :=
  match api with
  | .ok result => { success := true, data := .val (unwrapListResult result), error := none }
  | .error e => { success := false, data := .val [], error := some e.message }

/-- `createNotification(notificationData)`: the failure envelope has no
`data` key at all. -/
def createNotification (α : Type) (api : Except JsError (ApiResult α)) :
    Envelope α :=
  match api with
  | .ok result => { success := true, data := unwrapResult result, error := none }
  | .error e => { success := false, data := .absent, error := some e.message }

/-- `markNotificationAsRead(notificationId)`: same shape as
`createNotification`. -/
def markNotificationAsRead (α : Type) (notificationId : Nat)
    (api : Except JsError (ApiResult α)) : Envelope α :=
  match api with
  | .ok result => { success := true, data := unwrapResult result, error := none }
  | .error e => { success := false, data := .absent, error := some e.message }

/-- `markAllNotificationsAsRead()`: same shape as `createNotification`. -/
def markAllNotificationsAsRead (α : Type) (api : Except JsError (ApiResult α)) :
    Envelope α :=
  match api with
  | .ok result => { success := true, data := unwrapResult result, error := none }
  | .error e => { success := false, data := .absent, error := some e.message }

/-- `deleteNotification(notificationId)`: same shape as
`createNotification`. -/
def deleteNotification (α : Type) (notificationId : Nat)
    (api : Except JsError (ApiResult α)) : Envelope α :=
  match api with
  | .ok result => { success := true, data := unwrapResult result, error := none }
  | .error e => { success := false, data := .absent, error := some e.message }

/-- `getNotificationStats()`: same shape as `createNotification`. -/
def getNotificationStats (α : Type) (api : Except JsError (ApiResult α)) :
    Envelope α :=
  match api with
  | .ok result => { success := true, data := unwrapResult result, error := none }
  | .error e => { success := false, data := .absent, error := some e.message }

/-- The predicate inside `notifications.some(...)` of
`checkFirstTimeUser`: `n.type === 'welcome' ||
n.notification_metadata?.isWelcome`. -/
def isWelcomeNotification (n : Notification) : Bool :=
  n.type == "welcome" ||
    (match n.notification_metadata with
     | some m => m.isWelcome
     | none => false)

/-- `checkFirstTimeUser()`: fetches one notification via
`getNotifications` (whose own catch converts a thrown API error into a
failure envelope with `data: []`, so the `try` body here never throws
and this function's catch block is unreachable), reads `result.data ||
[]` without consulting `result.success`, and returns true iff the list
is empty or has no welcome-flagged entry. -/
def checkFirstTimeUser (api : Except JsError (ApiResult (List Notification))) :
    Bool :=
  let result := getNotifications api
  let notifications := fieldValD result.data []
  if notifications.length = 0 then true
  else !notifications.any isWelcomeNotification

/-! ## Real-time notification manager (`NotificationManager`)

The JS `Set` of listener callbacks is modelled as a list of `Listener`
values deduplicated by `id` (JS sets compare callbacks by object
identity; the `id` stands for that identity). A callback may throw,
so its behaviour is a function into `Except JsError Unit`. `setInterval`
is modelled by a scheduler fragment inside the state: a counter of
fresh interval ids and the list of currently scheduled recurring
actions. -/

/-- A listener callback registered with the manager. -/
structure Listener where
  id : Nat
  run : List Notification → Except JsError Unit

/-- What a fan-out performs: the invocations made (listener id and the
argument it received, in order) and the per-listener errors caught and
logged by the `try/catch` inside `notifyListeners`. -/
structure FanoutLog where
  invoked : List (Nat × List Notification)
  caught : List (Nat × String)
deriving DecidableEq, Repr

/-- `notifyListeners()`: invoke every registered callback with the
current notification list; a throwing callback's error is caught and
logged and the iteration continues. -/
def notifyListeners : List Listener → List Notification → FanoutLog
  | [], _ => ⟨[], []⟩
  | cb :: rest, ns =>
    let log := notifyListeners rest ns
    match cb.run ns with
    | .ok _ => ⟨(cb.id, ns) :: log.invoked, log.caught⟩
    | .error e => ⟨(cb.id, ns) :: log.invoked, (cb.id, e.message) :: log.caught⟩

/-- The manager's mutable fields plus the scheduler fragment:
`scheduled` holds the interval ids currently registered with
`setInterval`, and `nextIntervalId` supplies fresh ids. -/
structure ManagerState where
  listeners : List Listener
  notifications : List Notification
  isPolling : Bool
  pollingInterval : Option Nat
  nextIntervalId : Nat
  scheduled : List Nat

/-- The manager as constructed: no listeners, empty cache, not polling. -/
def initialManager : ManagerState :=
  { listeners := [], notifications := [], isPolling := false,
    pollingInterval := none, nextIntervalId := 0, scheduled := [] }

/-- `startRealTime()`: a no-op when already polling; otherwise set the
flag and register one recurring action with `setInterval`. -/
def startRealTime (s : ManagerState) : ManagerState :=
  if s.isPolling then s
  else
    { s with isPolling := true,
             pollingInterval := some s.nextIntervalId,
             scheduled := s.nextIntervalId :: s.scheduled,
             nextIntervalId := s.nextIntervalId + 1 }

/-- `stopRealTime()`: clear the interval when one is set, then drop the
flag. -/
def stopRealTime (s : ManagerState) : ManagerState :=
  let cleared :=
    match s.pollingInterval with
    | some intervalId =>
      { s with scheduled := s.scheduled.erase intervalId, pollingInterval := none }
    | none => s
  { cleared with isPolling := false }

/-- `addListener(callback)`: add to the set (a callback already present,
by identity, is not added again). The returned unregister closure is not
modelled; no claim concerns it. -/
def addListener (s : ManagerState) (cb : Listener) : ManagerState :=
  { s with listeners :=
      if s.listeners.any (fun l => l.id == cb.id) then s.listeners
      else s.listeners ++ [cb] }

/-- One tick of the recurring action `startRealTime` schedules: call
`getNotifications`; when the envelope reports success, replace the
cached list and fan out to the listeners; otherwise do nothing
(the surrounding catch only logs, and `getNotifications` never
throws). -/
def pollTick (s : ManagerState)
    (api : Except JsError (ApiResult (List Notification))) :
    ManagerState × FanoutLog :=
  let result := getNotifications api
  if result.success then
    let updated := { s with notifications := fieldValD result.data [] }
    (updated, notifyListeners updated.listeners updated.notifications)
  else (s, ⟨[], []⟩)

/-- The manager operations a client (or the scheduler) can perform. -/
inductive MgrOp where
  | start
  | stop
  | tick (api : Except JsError (ApiResult (List Notification)))
  | listen (cb : Listener)

/-- Apply one operation to the manager state. -/
def applyOp (s : ManagerState) : MgrOp → ManagerState
  | .start => startRealTime s
  | .stop => stopRealTime s
  | .tick api => (pollTick s api).1
  | .listen cb => addListener s cb

/-- The manager state reached from the freshly constructed singleton by
a sequence of operations. -/
def runOps (ops : List MgrOp) : ManagerState :=
  ops.foldl applyOp initialManager

/-- The scheduler invariant: the scheduled recurring actions are exactly
the one recorded in `pollingInterval` (if any), and the `isPolling` flag
mirrors it. -/
def schedInv (s : ManagerState) : Prop :=
  s.scheduled = s.pollingInterval.toList ∧ s.isPolling = s.pollingInterval.isSome

end ProjMgmt

namespace ProjMgmt

/-! ## Lemmas about the bulk-email classification loop -/

/-- Unfolding of `classifyEmails` on a malformed token. -/
theorem classify_cons_invalid (d seen e : _) (rest : List (List Char))
    (hv : isValidEmail e = false) :
    (classifyEmails d seen (e :: rest)).valid = (classifyEmails d seen rest).valid ∧
    (classifyEmails d seen (e :: rest)).invalid
      = e :: (classifyEmails d seen rest).invalid ∧
    (classifyEmails d seen (e :: rest)).duplicates
      = (classifyEmails d seen rest).duplicates ∧
    (classifyEmails d seen (e :: rest)).domainRestricted
      = (classifyEmails d seen rest).domainRestricted := by
  refine ⟨?_, ?_, ?_, ?_⟩ <;> simp [classifyEmails, hv]

/-- Unfolding of `classifyEmails` on a well-formed token already seen. -/
theorem classify_cons_dup (d seen e : _) (rest : List (List Char))
    (hv : isValidEmail e = true) (hs : e ∈ seen) :
    (classifyEmails d seen (e :: rest)).valid = (classifyEmails d seen rest).valid ∧
    (classifyEmails d seen (e :: rest)).invalid
      = (classifyEmails d seen rest).invalid ∧
    (classifyEmails d seen (e :: rest)).duplicates
      = e :: (classifyEmails d seen rest).duplicates ∧
    (classifyEmails d seen (e :: rest)).domainRestricted
      = (classifyEmails d seen rest).domainRestricted := by
  refine ⟨?_, ?_, ?_, ?_⟩ <;> simp [classifyEmails, hv, hs]

/-- Unfolding of `classifyEmails` on a well-formed unseen token whose
domain fails a non-empty allow-list. -/
theorem classify_cons_domR (d seen e : _) (rest : List (List Char))
    (hv : isValidEmail e = true) (hs : e ∉ seen)
    (hd : isAllowedDomain e d = false) (hne : d ≠ []) :
    (classifyEmails d seen (e :: rest)).valid = (classifyEmails d seen rest).valid ∧
    (classifyEmails d seen (e :: rest)).invalid
      = (classifyEmails d seen rest).invalid ∧
    (classifyEmails d seen (e :: rest)).duplicates
      = (classifyEmails d seen rest).duplicates ∧
    (classifyEmails d seen (e :: rest)).domainRestricted
      = e :: (classifyEmails d seen rest).domainRestricted := by
  refine ⟨?_, ?_, ?_, ?_⟩ <;> simp [classifyEmails, hv, hs, hd, hne]

/-- Unfolding of `classifyEmails` on a token classified valid (the only
branch that extends the seen set). -/
theorem classify_cons_valid (d seen e : _) (rest : List (List Char))
    (hv : isValidEmail e = true) (hs : e ∉ seen)
    (hd : isAllowedDomain e d = true ∨ d = []) :
    (classifyEmails d seen (e :: rest)).valid
      = e :: (classifyEmails d (e :: seen) rest).valid ∧
    (classifyEmails d seen (e :: rest)).invalid
      = (classifyEmails d (e :: seen) rest).invalid ∧
    (classifyEmails d seen (e :: rest)).duplicates
      = (classifyEmails d (e :: seen) rest).duplicates ∧
    (classifyEmails d seen (e :: rest)).domainRestricted
      = (classifyEmails d (e :: seen) rest).domainRestricted := by
  have hd' : ¬(isAllowedDomain e d = false ∧ ¬d = []) := by
    rcases hd with h | h
    · simp [h]
    · simp [h]
  refine ⟨?_, ?_, ?_, ?_⟩ <;> simp [classifyEmails, hv, hs, hd']

/-- Tokens failing `isValidEmail` land in `invalid`, and only they do,
independently of the seen set and the allow-list. -/
theorem classify_invalid (d : List (List Char)) (es : List (List Char)) :
    ∀ seen, (classifyEmails d seen es).invalid
      = es.filter (fun e => !isValidEmail e) := by
  induction es with
  | nil => intro seen; rfl
  | cons e rest ih =>
    intro seen
    rcases (Bool.eq_false_or_eq_true (isValidEmail e)).symm with hv | hv
    · rw [(classify_cons_invalid d seen e rest hv).2.1, ih seen]
      simp [List.filter_cons, hv]
    · by_cases hs : e ∈ seen
      · rw [(classify_cons_dup d seen e rest hv hs).2.1, ih seen]
        simp [List.filter_cons, hv]
      · rcases (Bool.eq_false_or_eq_true (isAllowedDomain e d)).symm with hd | hd
        · by_cases hne : d = []
          · rw [(classify_cons_valid d seen e rest hv hs (Or.inr hne)).2.1,
              ih (e :: seen)]
            simp [List.filter_cons, hv]
          · rw [(classify_cons_domR d seen e rest hv hs hd hne).2.1, ih seen]
            simp [List.filter_cons, hv]
        · rw [(classify_cons_valid d seen e rest hv hs (Or.inl hd)).2.1,
            ih (e :: seen)]
          simp [List.filter_cons, hv]

/-- Every token in `valid` is a well-formed email that passed the
domain check (or there was no allow-list). -/
theorem classify_mem_valid (d : List (List Char)) (es : List (List Char)) :
    ∀ seen x, x ∈ (classifyEmails d seen es).valid →
      isValidEmail x = true ∧ (isAllowedDomain x d = true ∨ d = []) := by
  induction es with
  | nil => intro seen x hx; simp [classifyEmails] at hx
  | cons e rest ih =>
    intro seen x hx
    rcases (Bool.eq_false_or_eq_true (isValidEmail e)).symm with hv | hv
    · rw [(classify_cons_invalid d seen e rest hv).1] at hx
      exact ih seen x hx
    · by_cases hs : e ∈ seen
      · rw [(classify_cons_dup d seen e rest hv hs).1] at hx
        exact ih seen x hx
      · rcases (Bool.eq_false_or_eq_true (isAllowedDomain e d)).symm with hd | hd
        · by_cases hne : d = []
          · rw [(classify_cons_valid d seen e rest hv hs (Or.inr hne)).1] at hx
            rcases List.mem_cons.mp hx with rfl | hx
            · exact ⟨hv, Or.inr hne⟩
            · exact ih (e :: seen) x hx
          · rw [(classify_cons_domR d seen e rest hv hs hd hne).1] at hx
            exact ih seen x hx
        · rw [(classify_cons_valid d seen e rest hv hs (Or.inl hd)).1] at hx
          rcases List.mem_cons.mp hx with rfl | hx
          · exact ⟨hv, Or.inl hd⟩
          · exact ih (e :: seen) x hx

/-- Every token in `duplicates` is a well-formed email that was either
already in the seen set or also ends up in `valid`. -/
theorem classify_mem_dup (d : List (List Char)) (es : List (List Char)) :
    ∀ seen x, x ∈ (classifyEmails d seen es).duplicates →
      isValidEmail x = true ∧
        (x ∈ seen ∨ x ∈ (classifyEmails d seen es).valid) := by
  induction es with
  | nil => intro seen x hx; simp [classifyEmails] at hx
  | cons e rest ih =>
    intro seen x hx
    rcases (Bool.eq_false_or_eq_true (isValidEmail e)).symm with hv | hv
    · rw [(classify_cons_invalid d seen e rest hv).2.2.1] at hx
      rw [(classify_cons_invalid d seen e rest hv).1]
      exact ih seen x hx
    · by_cases hs : e ∈ seen
      · rw [(classify_cons_dup d seen e rest hv hs).2.2.1] at hx
        rw [(classify_cons_dup d seen e rest hv hs).1]
        rcases List.mem_cons.mp hx with rfl | hx
        · exact ⟨hv, Or.inl hs⟩
        · exact ih seen x hx
      · rcases (Bool.eq_false_or_eq_true (isAllowedDomain e d)).symm with hd | hd
        · by_cases hne : d = []
          · rw [(classify_cons_valid d seen e rest hv hs (Or.inr hne)).2.2.1] at hx
            rw [(classify_cons_valid d seen e rest hv hs (Or.inr hne)).1]
            rcases ih (e :: seen) x hx with ⟨hxv, hmem | hmem⟩
            · rcases List.mem_cons.mp hmem with rfl | hmem
              · exact ⟨hxv, Or.inr (List.mem_cons_self _ _)⟩
              · exact ⟨hxv, Or.inl hmem⟩
            · exact ⟨hxv, Or.inr (List.mem_cons_of_mem _ hmem)⟩
          · rw [(classify_cons_domR d seen e rest hv hs hd hne).2.2.1] at hx
            rw [(classify_cons_domR d seen e rest hv hs hd hne).1]
            exact ih seen x hx
        · rw [(classify_cons_valid d seen e rest hv hs (Or.inl hd)).2.2.1] at hx
          rw [(classify_cons_valid d seen e rest hv hs (Or.inl hd)).1]
          rcases ih (e :: seen) x hx with ⟨hxv, hmem | hmem⟩
          · rcases List.mem_cons.mp hmem with rfl | hmem
            · exact ⟨hxv, Or.inr (List.mem_cons_self _ _)⟩
            · exact ⟨hxv, Or.inl hmem⟩
          · exact ⟨hxv, Or.inr (List.mem_cons_of_mem _ hmem)⟩

/-- When every seen email passed the domain check, so does every email
in `duplicates` (a duplicate was first classified valid). -/
theorem classify_mem_dup_allowed (d : List (List Char)) (es : List (List Char)) :
    ∀ seen, (∀ x ∈ seen, isAllowedDomain x d = true ∨ d = []) →
      ∀ x ∈ (classifyEmails d seen es).duplicates,
        isAllowedDomain x d = true ∨ d = [] := by
  induction es with
  | nil => intro seen _ x hx; simp [classifyEmails] at hx
  | cons e rest ih =>
    intro seen hseen x hx
    rcases (Bool.eq_false_or_eq_true (isValidEmail e)).symm with hv | hv
    · rw [(classify_cons_invalid d seen e rest hv).2.2.1] at hx
      exact ih seen hseen x hx
    · by_cases hs : e ∈ seen
      · rw [(classify_cons_dup d seen e rest hv hs).2.2.1] at hx
        rcases List.mem_cons.mp hx with rfl | hx
        · exact hseen x hs
        · exact ih seen hseen x hx
      · rcases (Bool.eq_false_or_eq_true (isAllowedDomain e d)).symm with hd | hd
        · by_cases hne : d = []
          · rw [(classify_cons_valid d seen e rest hv hs (Or.inr hne)).2.2.1] at hx
            refine ih (e :: seen) ?_ x hx
            intro y hy
            rcases List.mem_cons.mp hy with rfl | hy
            · exact Or.inr hne
            · exact hseen y hy
          · rw [(classify_cons_domR d seen e rest hv hs hd hne).2.2.1] at hx
            exact ih seen hseen x hx
        · rw [(classify_cons_valid d seen e rest hv hs (Or.inl hd)).2.2.1] at hx
          refine ih (e :: seen) ?_ x hx
          intro y hy
          rcases List.mem_cons.mp hy with rfl | hy
          · exact Or.inl hd
          · exact hseen y hy

/-- Every token in `domainRestricted` is a well-formed email that failed
the domain check against a non-empty allow-list. -/
theorem classify_mem_domR (d : List (List Char)) (es : List (List Char)) :
    ∀ seen x, x ∈ (classifyEmails d seen es).domainRestricted →
      isValidEmail x = true ∧ isAllowedDomain x d = false ∧ d ≠ [] := by
  induction es with
  | nil => intro seen x hx; simp [classifyEmails] at hx
  | cons e rest ih =>
    intro seen x hx
    rcases (Bool.eq_false_or_eq_true (isValidEmail e)).symm with hv | hv
    · rw [(classify_cons_invalid d seen e rest hv).2.2.2] at hx
      exact ih seen x hx
    · by_cases hs : e ∈ seen
      · rw [(classify_cons_dup d seen e rest hv hs).2.2.2] at hx
        exact ih seen x hx
      · rcases (Bool.eq_false_or_eq_true (isAllowedDomain e d)).symm with hd | hd
        · by_cases hne : d = []
          · rw [(classify_cons_valid d seen e rest hv hs (Or.inr hne)).2.2.2] at hx
            exact ih (e :: seen) x hx
          · rw [(classify_cons_domR d seen e rest hv hs hd hne).2.2.2] at hx
            rcases List.mem_cons.mp hx with rfl | hx
            · exact ⟨hv, hd, hne⟩
            · exact ih seen x hx
        · rw [(classify_cons_valid d seen e rest hv hs (Or.inl hd)).2.2.2] at hx
          exact ih (e :: seen) x hx

/-- Inserting an element at the head of the second of four concatenated
lists permutes with consing it in front. -/
theorem perm_bucket_two {α : Type} (e : α) (V I D R rest : List α)
    (h : (V ++ I ++ D ++ R).Perm rest) :
    (V ++ (e :: I) ++ D ++ R).Perm (e :: rest) :=
  (((@List.perm_middle α e V I).append_right D).append_right R).trans (h.cons e)

/-- Inserting an element at the head of the third of four concatenated
lists permutes with consing it in front. -/
theorem perm_bucket_three {α : Type} (e : α) (V I D R rest : List α)
    (h : (V ++ I ++ D ++ R).Perm rest) :
    (V ++ I ++ (e :: D) ++ R).Perm (e :: rest) :=
  ((@List.perm_middle α e (V ++ I) D).append_right R).trans (h.cons e)

/-- Inserting an element at the head of the fourth of four concatenated
lists permutes with consing it in front. -/
theorem perm_bucket_four {α : Type} (e : α) (V I D R rest : List α)
    (h : (V ++ I ++ D ++ R).Perm rest) :
    (V ++ I ++ D ++ (e :: R)).Perm (e :: rest) :=
  (@List.perm_middle α e (V ++ I ++ D) R).trans (h.cons e)

/-- The concatenation of the four buckets is a permutation of the
classified token list: each token occurrence lands in exactly one
bucket. -/
theorem classify_perm (d : List (List Char)) (es : List (List Char)) :
    ∀ seen,
      ((classifyEmails d seen es).valid ++ (classifyEmails d seen es).invalid ++
        (classifyEmails d seen es).duplicates ++
        (classifyEmails d seen es).domainRestricted).Perm es := by
  induction es with
  | nil => intro seen; simp [classifyEmails]
  | cons e rest ih =>
    intro seen
    rcases (Bool.eq_false_or_eq_true (isValidEmail e)).symm with hv | hv
    · have h := classify_cons_invalid d seen e rest hv
      rw [h.1, h.2.1, h.2.2.1, h.2.2.2]
      exact perm_bucket_two e _ _ _ _ rest (ih seen)
    · by_cases hs : e ∈ seen
      · have h := classify_cons_dup d seen e rest hv hs
        rw [h.1, h.2.1, h.2.2.1, h.2.2.2]
        exact perm_bucket_three e _ _ _ _ rest (ih seen)
      · rcases (Bool.eq_false_or_eq_true (isAllowedDomain e d)).symm with hd | hd
        · by_cases hne : d = []
          · have h := classify_cons_valid d seen e rest hv hs (Or.inr hne)
            rw [h.1, h.2.1, h.2.2.1, h.2.2.2]
            exact (ih (e :: seen)).cons e
          · have h := classify_cons_domR d seen e rest hv hs hd hne
            rw [h.1, h.2.1, h.2.2.1, h.2.2.2]
            exact perm_bucket_four e _ _ _ _ rest (ih seen)
        · have h := classify_cons_valid d seen e rest hv hs (Or.inl hd)
          rw [h.1, h.2.1, h.2.2.1, h.2.2.2]
          exact (ih (e :: seen)).cons e

/-- `parseBulkEmails` is the classification loop run on the token
pipeline with an empty seen set (the empty-input guard returns the same
empty buckets the loop produces on no tokens). -/
theorem parseBulkEmails_eq (input : List Char) (d : List (List Char)) :
    parseBulkEmails input d = classifyEmails d [] (bulkTokens input) := by
  by_cases hi : input.isEmpty
  · have h : input = [] := List.isEmpty_iff.mp hi
    subst h
    rfl
  · simp [parseBulkEmails, hi]

/-! ## Lemmas about the batch-validation loop -/

/-- Everything `normalizeEmails` returns passed `isValidEmail` (it is a
filter by that predicate in every input case). -/
theorem normalizeEmails_all_valid (emails : EmailsInput) :
    ∀ x ∈ normalizeEmails emails, isValidEmail x = true := by
  intro x hx
  cases emails with
  | other => simp [normalizeEmails] at hx
  | ofString s =>
    simp only [normalizeEmails, List.mem_filter, Bool.and_eq_true] at hx
    exact hx.2.2
  | ofArray l =>
    simp only [normalizeEmails, List.mem_filter, Bool.and_eq_true] at hx
    exact hx.2.2

/-- Unfolding of `classifyBatch` on a malformed token. -/
theorem classifyBatch_cons_invalid (d : List (List Char)) (e : List Char)
    (rest : List (List Char)) (hv : isValidEmail e = false) :
    (classifyBatch d (e :: rest)).valid = (classifyBatch d rest).valid ∧
    (classifyBatch d (e :: rest)).invalid = e :: (classifyBatch d rest).invalid ∧
    (classifyBatch d (e :: rest)).domainRestricted
      = (classifyBatch d rest).domainRestricted := by
  refine ⟨?_, ?_, ?_⟩ <;> simp [classifyBatch, hv]

/-- Unfolding of `classifyBatch` on a well-formed token failing the
domain check. -/
theorem classifyBatch_cons_domR (d : List (List Char)) (e : List Char)
    (rest : List (List Char)) (hv : isValidEmail e = true)
    (ha : isAllowedDomain e d = false) :
    (classifyBatch d (e :: rest)).valid = (classifyBatch d rest).valid ∧
    (classifyBatch d (e :: rest)).invalid = (classifyBatch d rest).invalid ∧
    (classifyBatch d (e :: rest)).domainRestricted
      = e :: (classifyBatch d rest).domainRestricted := by
  refine ⟨?_, ?_, ?_⟩ <;> simp [classifyBatch, hv, ha]

/-- Unfolding of `classifyBatch` on a token passing both checks. -/
theorem classifyBatch_cons_valid (d : List (List Char)) (e : List Char)
    (rest : List (List Char)) (hv : isValidEmail e = true)
    (ha : isAllowedDomain e d = true) :
    (classifyBatch d (e :: rest)).valid = e :: (classifyBatch d rest).valid ∧
    (classifyBatch d (e :: rest)).invalid = (classifyBatch d rest).invalid ∧
    (classifyBatch d (e :: rest)).domainRestricted
      = (classifyBatch d rest).domainRestricted := by
  refine ⟨?_, ?_, ?_⟩ <;> simp [classifyBatch, hv, ha]

/-- On a token list of well-formed emails (which is what
`normalizeEmails` produces) the `invalid` bucket of `classifyBatch`
stays empty: that branch is unreachable. -/
theorem classifyBatch_invalid_nil (d : List (List Char)) (es : List (List Char))
    (h : ∀ x ∈ es, isValidEmail x = true) :
    (classifyBatch d es).invalid = [] := by
  induction es with
  | nil => rfl
  | cons e rest ih =>
    have hv : isValidEmail e = true := h e (List.mem_cons_self _ _)
    have hrest : ∀ x ∈ rest, isValidEmail x = true :=
      fun x hx => h x (List.mem_cons_of_mem _ hx)
    rcases (Bool.eq_false_or_eq_true (isAllowedDomain e d)).symm with ha | ha
    · rw [(classifyBatch_cons_domR d e rest hv ha).2.1]
      exact ih hrest
    · rw [(classifyBatch_cons_valid d e rest hv ha).2.1]
      exact ih hrest

/-- Inserting an element at the head of the second of three concatenated
lists permutes with consing it in front. -/
theorem perm_bucket3_two {α : Type} (e : α) (V I R rest : List α)
    (h : (V ++ I ++ R).Perm rest) :
    (V ++ (e :: I) ++ R).Perm (e :: rest) :=
  (((@List.perm_middle α e V I).append_right R)).trans (h.cons e)

/-- Inserting an element at the head of the third of three concatenated
lists permutes with consing it in front. -/
theorem perm_bucket3_three {α : Type} (e : α) (V I R rest : List α)
    (h : (V ++ I ++ R).Perm rest) :
    (V ++ I ++ (e :: R)).Perm (e :: rest) :=
  (@List.perm_middle α e (V ++ I) R).trans (h.cons e)

/-- The concatenation of the three buckets of `classifyBatch` is a
permutation of its input: every occurrence (duplicates included) lands
in exactly one bucket — the loop performs no de-duplication. -/
theorem classifyBatch_perm (d : List (List Char)) (es : List (List Char)) :
    ((classifyBatch d es).valid ++ (classifyBatch d es).invalid ++
      (classifyBatch d es).domainRestricted).Perm es := by
  induction es with
  | nil => simp [classifyBatch]
  | cons e rest ih =>
    rcases (Bool.eq_false_or_eq_true (isValidEmail e)).symm with hv | hv
    · have h := classifyBatch_cons_invalid d e rest hv
      rw [h.1, h.2.1, h.2.2]
      exact perm_bucket3_two e _ _ _ rest ih
    · rcases (Bool.eq_false_or_eq_true (isAllowedDomain e d)).symm with ha | ha
      · have h := classifyBatch_cons_domR d e rest hv ha
        rw [h.1, h.2.1, h.2.2]
        exact perm_bucket3_three e _ _ _ rest ih
      · have h := classifyBatch_cons_valid d e rest hv ha
        rw [h.1, h.2.1, h.2.2]
        exact ih.cons e

/-! ## Lemmas about the notification manager -/

/-- The freshly constructed manager satisfies the scheduler invariant. -/
theorem schedInv_initial : schedInv initialManager :=
  ⟨rfl, rfl⟩

/-- Every manager operation preserves the scheduler invariant. -/
theorem schedInv_applyOp (s : ManagerState) (op : MgrOp) (h : schedInv s) :
    schedInv (applyOp s op) := by
  cases op with
  | start =>
    rcases (Bool.eq_false_or_eq_true s.isPolling).symm with hp | hp
    · have hnone : s.pollingInterval = none := by
        cases hi : s.pollingInterval with
        | none => rfl
        | some i => rw [h.2, hi] at hp; simp at hp
      have hsched : s.scheduled = [] := by rw [h.1, hnone]; rfl
      refine ⟨?_, ?_⟩ <;>
        simp [applyOp, startRealTime, hp, hsched, Option.toList]
    · refine ⟨?_, ?_⟩
      · simp [applyOp, startRealTime, hp, h.1]
      · simp [applyOp, startRealTime, hp]
        rw [← h.2]
        exact hp
  | stop =>
    cases hi : s.pollingInterval with
    | none =>
      have hsched : s.scheduled = [] := by rw [h.1, hi]; rfl
      refine ⟨?_, ?_⟩ <;> simp [applyOp, stopRealTime, hi, hsched]
    | some intervalId =>
      have hsched : s.scheduled = [intervalId] := by rw [h.1, hi]; rfl
      refine ⟨?_, ?_⟩ <;> simp [applyOp, stopRealTime, hi, hsched]
  | tick api =>
    cases api with
    | ok r => exact ⟨h.1, h.2⟩
    | error e => exact ⟨h.1, h.2⟩
  | listen cb => exact ⟨h.1, h.2⟩

/-- Every reachable manager state satisfies the scheduler invariant. -/
theorem schedInv_runOps (ops : List MgrOp) : schedInv (runOps ops) := by
  have key : ∀ (l : List MgrOp) (s : ManagerState),
      schedInv s → schedInv (l.foldl applyOp s) := by
    intro l
    induction l with
    | nil => intro s hs; exact hs
    | cons op rest ih => intro s hs; exact ih (applyOp s op) (schedInv_applyOp s op hs)
  exact key ops initialManager schedInv_initial

/-! ## The claims -/

/-- C1 counterexample: when the underlying fetch fails,
`checkFirstTimeUser` returns true, not false as claimed — the failure
envelope of `getNotifications` carries an empty `data` list, and
`checkFirstTimeUser` reads `result.data || []` without consulting
`result.success` (its own catch block is unreachable). -/
theorem checkFirstTimeUser_fetch_failure :
    checkFirstTimeUser (Except.error { message := "network error" }) = true := rfl

/-- C1 (corrected): `checkFirstTimeUser` returns true iff the fetched
1-item list is empty or contains no entry flagged as a welcome
notification; when the underlying fetch fails it also returns true (the
failure envelope's empty list is treated as no notifications), not
false. -/
theorem checkFirstTimeUser_spec :
    (∀ r : ApiResult (List Notification),
      (checkFirstTimeUser (Except.ok r) = true ↔
        (unwrapListResult r = [] ∨
          ∀ n ∈ unwrapListResult r, isWelcomeNotification n = false))) ∧
    (∀ e : JsError, checkFirstTimeUser (Except.error e) = true) := by
  constructor
  · intro r
    cases hr : unwrapListResult r with
    | nil => simp [checkFirstTimeUser, getNotifications, fieldValD, hr]
    | cons n tail => simp [checkFirstTimeUser, getNotifications, fieldValD, hr]
  · intro e
    rfl

/-- C2 counterexample: `createNotification`'s failure envelope has no
`data` key at all, refuting the claim that on failure the `data` field
is present (defaulted) for every facade operation. -/
theorem createNotification_failure_omits_data :
    (createNotification (List Notification)
      (Except.error { message := "boom" })).data = Field.absent := rfl

/-- C2 (amended): every facade operation returns a `success`/`data`/
`error` envelope with `error` null and `data` present on success; on
failure `success` is false and `error` carries the message, but the
`data` field is present (as the empty list) only for
`getNotifications` — the other five operations omit `data` from their
failure envelope. -/
theorem facade_envelope_spec :
    (∀ e : JsError, getNotifications (Except.error e)
      = { success := false, data := Field.val [], error := some e.message }) ∧
    (∀ (α : Type) (e : JsError), createNotification α (Except.error e)
      = { success := false, data := Field.absent, error := some e.message }) ∧
    (∀ (α : Type) (notificationId : Nat) (e : JsError),
      markNotificationAsRead α notificationId (Except.error e)
        = { success := false, data := Field.absent, error := some e.message }) ∧
    (∀ (α : Type) (e : JsError), markAllNotificationsAsRead α (Except.error e)
      = { success := false, data := Field.absent, error := some e.message }) ∧
    (∀ (α : Type) (notificationId : Nat) (e : JsError),
      deleteNotification α notificationId (Except.error e)
        = { success := false, data := Field.absent, error := some e.message }) ∧
    (∀ (α : Type) (e : JsError), getNotificationStats α (Except.error e)
      = { success := false, data := Field.absent, error := some e.message }) ∧
    (∀ r : ApiResult (List Notification), getNotifications (Except.ok r)
      = { success := true, data := Field.val (unwrapListResult r), error := none }) ∧
    (∀ (α : Type) (r : ApiResult α), createNotification α (Except.ok r)
      = { success := true, data := unwrapResult r, error := none }) ∧
    (∀ (α : Type) (notificationId : Nat) (r : ApiResult α),
      markNotificationAsRead α notificationId (Except.ok r)
        = { success := true, data := unwrapResult r, error := none }) ∧
    (∀ (α : Type) (r : ApiResult α), markAllNotificationsAsRead α (Except.ok r)
      = { success := true, data := unwrapResult r, error := none }) ∧
    (∀ (α : Type) (notificationId : Nat) (r : ApiResult α),
      deleteNotification α notificationId (Except.ok r)
        = { success := true, data := unwrapResult r, error := none }) ∧
    (∀ (α : Type) (r : ApiResult α), getNotificationStats α (Except.ok r)
      = { success := true, data := unwrapResult r, error := none }) ∧
    (∀ (α : Type) (r : ApiResult α), unwrapResult r ≠ Field.absent) := by
  refine ⟨fun e => rfl, fun α e => rfl, fun α nid e => rfl, fun α e => rfl,
    fun α nid e => rfl, fun α e => rfl, fun r => rfl, fun α r => rfl,
    fun α nid r => rfl, fun α r => rfl, fun α nid r => rfl, fun α r => rfl,
    fun α r => ?_⟩
  cases r <;> simp [unwrapResult]

/-- C3 (confirmed): `parseBulkEmails` tokenizes on delimiter runs,
trims/lower-cases, drops empty tokens, and classifies in order with
priority invalid → duplicate → domain-restricted → valid, adding to the
seen set only on valid: the `invalid` bucket is exactly the malformed
tokens (so a malformed repeated token is never a duplicate), every
duplicate is a well-formed email that also appears in `valid`, and the
spec's worked example evaluates as stated. -/
theorem parseBulkEmails_spec :
    (∀ (input : List Char) (d : List (List Char)),
      (parseBulkEmails input d).invalid
        = (bulkTokens input).filter (fun e => !isValidEmail e)) ∧
    (∀ (input : List Char) (d : List (List Char)) (x : List Char),
      x ∈ (parseBulkEmails input d).duplicates →
        isValidEmail x = true ∧ x ∈ (parseBulkEmails input d).valid) ∧
    parseBulkEmails (String.toList "a@x.com; a@x.com, bad, b@y.org") [] =
      { valid := [String.toList "a@x.com", String.toList "b@y.org"],
        invalid := [String.toList "bad"],
        duplicates := [String.toList "a@x.com"],
        domainRestricted := [] } := by
  refine ⟨?_, ?_, by decide⟩
  · intro input d
    rw [parseBulkEmails_eq]
    exact classify_invalid d (bulkTokens input) []
  · intro input d x hx
    rw [parseBulkEmails_eq] at hx ⊢
    rcases classify_mem_dup d (bulkTokens input) [] x hx with ⟨hv, hmem | hmem⟩
    · exact absurd hmem (List.not_mem_nil x)
    · exact ⟨hv, hmem⟩

/-- C4 counterexample: the four buckets are not pairwise disjoint —
on the input `"a@x.com a@x.com"` the email appears in both `valid` and
`duplicates`. -/
theorem parseBulkEmails_buckets_share_element :
    String.toList "a@x.com" ∈
        (parseBulkEmails (String.toList "a@x.com a@x.com") []).valid ∧
      String.toList "a@x.com" ∈
        (parseBulkEmails (String.toList "a@x.com a@x.com") []).duplicates := by
  decide

/-- C4 (amended): the four buckets partition the multiset of trimmed,
lower-cased, non-empty tokens (their concatenation is a permutation of
the token list, so each occurrence lands in exactly one bucket), and
all bucket pairs are disjoint except `valid`/`duplicates`, which share
exactly the repeated valid emails: `invalid` holds only malformed
tokens while the other three hold only well-formed ones, and
`domainRestricted` is disjoint from both `valid` and `duplicates`. -/
theorem parseBulkEmails_partition :
    (∀ (input : List Char) (d : List (List Char)),
      ((parseBulkEmails input d).valid ++ (parseBulkEmails input d).invalid ++
        (parseBulkEmails input d).duplicates ++
        (parseBulkEmails input d).domainRestricted).Perm (bulkTokens input)) ∧
    (∀ (input : List Char) (d : List (List Char)) (x : List Char),
      x ∈ (parseBulkEmails input d).invalid → isValidEmail x = false) ∧
    (∀ (input : List Char) (d : List (List Char)) (x : List Char),
      (x ∈ (parseBulkEmails input d).valid ∨
        x ∈ (parseBulkEmails input d).duplicates ∨
        x ∈ (parseBulkEmails input d).domainRestricted) →
      isValidEmail x = true) ∧
    (∀ (input : List Char) (d : List (List Char)) (x : List Char),
      x ∈ (parseBulkEmails input d).valid →
        x ∉ (parseBulkEmails input d).domainRestricted) ∧
    (∀ (input : List Char) (d : List (List Char)) (x : List Char),
      x ∈ (parseBulkEmails input d).duplicates →
        x ∉ (parseBulkEmails input d).domainRestricted) := by
  refine ⟨?_, ?_, ?_, ?_, ?_⟩
  · intro input d
    rw [parseBulkEmails_eq]
    exact classify_perm d (bulkTokens input) []
  · intro input d x hx
    rw [parseBulkEmails_eq, classify_invalid d (bulkTokens input) []] at hx
    have h := (List.mem_filter.mp hx).2
    simpa using h
  · intro input d x hx
    rw [parseBulkEmails_eq] at hx
    rcases hx with hx | hx | hx
    · exact (classify_mem_valid d (bulkTokens input) [] x hx).1
    · exact (classify_mem_dup d (bulkTokens input) [] x hx).1
    · exact (classify_mem_domR d (bulkTokens input) [] x hx).1
  · intro input d x hx hmem
    rw [parseBulkEmails_eq] at hx hmem
    rcases classify_mem_valid d (bulkTokens input) [] x hx with ⟨-, hall⟩
    rcases classify_mem_domR d (bulkTokens input) [] x hmem with ⟨-, hna, hne⟩
    rcases hall with hall | hall
    · rw [hall] at hna
      exact Bool.noConfusion hna
    · exact hne hall
  · intro input d x hx hmem
    rw [parseBulkEmails_eq] at hx hmem
    have hall := classify_mem_dup_allowed d (bulkTokens input) []
      (fun y hy => absurd hy (List.not_mem_nil y)) x hx
    rcases classify_mem_domR d (bulkTokens input) [] x hmem with ⟨-, hna, hne⟩
    rcases hall with hall | hall
    · rw [hall] at hna
      exact Bool.noConfusion hna
    · exact hne hall

/-- C5 counterexample: with an empty allow-list and a syntactically
invalid email, `isAllowedDomain` returns false — the validity guard
runs before the empty-allow-list check, refuting "returns true whenever
the allow-list is empty or absent". -/
theorem isAllowedDomain_empty_allowlist_invalid :
    isAllowedDomain (String.toList "bad") [] = false := by decide

/-- C5 (amended): `isAllowedDomain` returns false for every
syntactically invalid email regardless of the allow-list; for valid
emails it returns true when the allow-list is empty, and against a
non-empty allow-list it returns true iff the email's lower-cased domain
equals some entry or ends with a dot followed by that entry
(case-insensitively); the spec's two concrete examples hold. -/
theorem isAllowedDomain_spec :
    (∀ (e : List Char) (ds : List (List Char)),
      isValidEmail e = false → isAllowedDomain e ds = false) ∧
    (∀ e : List Char, isValidEmail e = true → isAllowedDomain e [] = true) ∧
    (∀ (e : List Char) (ds : List (List Char)),
      isValidEmail e = true → ds ≠ [] →
      (isAllowedDomain e ds = true ↔
        ∃ dom ∈ ds, emailDomain e = listToLower dom ∨
          ('.' :: listToLower dom) <:+ emailDomain e)) ∧
    isAllowedDomain (String.toList "u@sub.example.com")
      [String.toList "example.com"] = true ∧
    isAllowedDomain (String.toList "u@other.com")
      [String.toList "example.com"] = false := by
  refine ⟨?_, ?_, ?_, by decide, by decide⟩
  · intro e ds hv
    simp [isAllowedDomain, hv]
  · intro e hv
    cases e with
    | nil => exact absurd hv (by decide)
    | cons c cs => simp [isAllowedDomain, hv]
  · intro e ds hv hne
    have hdse : ds.isEmpty = false := by
      cases ds with
      | nil => exact absurd rfl hne
      | cons a l => rfl
    cases e with
    | nil => exact absurd hv (by decide)
    | cons c cs =>
      simp [isAllowedDomain, hv, hdse, List.any_eq_true]

/-- C6 (confirmed): for every error thrown by the injected API client,
each facade operation returns a failure envelope whose `error` field
carries the thrown error's message; each operation is a total function
into `Envelope`, so the exception is converted, never propagated. -/
theorem facade_error_handling :
    ∀ e : JsError,
      ((getNotifications (Except.error e)).success = false ∧
        (getNotifications (Except.error e)).error = some e.message) ∧
      (∀ α : Type, (createNotification α (Except.error e)).success = false ∧
        (createNotification α (Except.error e)).error = some e.message) ∧
      (∀ (α : Type) (notificationId : Nat),
        (markNotificationAsRead α notificationId (Except.error e)).success = false ∧
          (markNotificationAsRead α notificationId (Except.error e)).error
            = some e.message) ∧
      (∀ α : Type, (markAllNotificationsAsRead α (Except.error e)).success = false ∧
        (markAllNotificationsAsRead α (Except.error e)).error = some e.message) ∧
      (∀ (α : Type) (notificationId : Nat),
        (deleteNotification α notificationId (Except.error e)).success = false ∧
          (deleteNotification α notificationId (Except.error e)).error
            = some e.message) ∧
      (∀ α : Type, (getNotificationStats α (Except.error e)).success = false ∧
        (getNotificationStats α (Except.error e)).error = some e.message) :=
  fun e => ⟨⟨rfl, rfl⟩, fun α => ⟨rfl, rfl⟩, fun α nid => ⟨rfl, rfl⟩,
    fun α => ⟨rfl, rfl⟩, fun α nid => ⟨rfl, rfl⟩, fun α => ⟨rfl, rfl⟩⟩

/-- C7 (confirmed): during fan-out every registered listener is invoked
exactly once, in registration order, with the current notification
sequence — also when earlier listeners throw — and a throwing
listener's error is caught and logged per-listener (`caught` collects
exactly the messages of the listeners whose callback threw); the
fan-out is a total function, so the poll cycle does not crash. -/
theorem notifyListeners_fanout :
    ∀ (ls : List Listener) (ns : List Notification),
      (notifyListeners ls ns).invoked = ls.map (fun cb => (cb.id, ns)) ∧
      (notifyListeners ls ns).caught = ls.filterMap (fun cb =>
        match cb.run ns with
        | Except.ok _ => none
        | Except.error err => some (cb.id, err.message)) := by
  intro ls ns
  induction ls with
  | nil => exact ⟨rfl, rfl⟩
  | cons cb rest ih =>
    cases hr : cb.run ns with
    | ok u =>
      refine ⟨?_, ?_⟩
      · simp [notifyListeners, hr, ih.1]
      · simp [notifyListeners, hr, ih.2, List.filterMap_cons]
    | error err =>
      refine ⟨?_, ?_⟩
      · simp [notifyListeners, hr, ih.1]
      · simp [notifyListeners, hr, ih.2, List.filterMap_cons]

/-- C8 (confirmed): on a poll tick where the facade's list call yields
a failure envelope (the API call threw, and that is the only way
`getNotifications` reports failure), the manager state — in particular
the cached notification sequence — is left unchanged and no listener is
invoked. -/
theorem pollTick_failure_frame :
    ∀ (s : ManagerState) (e : JsError),
      (getNotifications (Except.error e)).success = false ∧
      pollTick s (Except.error e) = (s, { invoked := [], caught := [] }) :=
  fun s e => ⟨rfl, rfl⟩

/-- C9 (confirmed): `startRealTime` is a no-op when already polling,
calling it twice in a row is the same as calling it once, and in every
manager state reachable from the initial one at most one recurring poll
action is scheduled. -/
theorem startRealTime_single_schedule :
    (∀ s : ManagerState, s.isPolling = true → startRealTime s = s) ∧
    (∀ s : ManagerState, startRealTime (startRealTime s) = startRealTime s) ∧
    (∀ ops : List MgrOp, (runOps ops).scheduled.length ≤ 1) := by
  refine ⟨?_, ?_, ?_⟩
  · intro s hp
    simp [startRealTime, hp]
  · intro s
    rcases (Bool.eq_false_or_eq_true s.isPolling).symm with hp | hp
    · simp [startRealTime, hp]
    · simp [startRealTime, hp]
  · intro ops
    rw [(schedInv_runOps ops).1]
    cases (runOps ops).pollingInterval <;> simp [Option.toList]

/-- C10 (confirmed): for every input and allow-list the `invalid`
bucket of `validateEmailBatch` is empty (`normalizeEmails` pre-filters
to syntactically valid emails, so that branch is unreachable), and no
de-duplication happens: the `valid` and `domainRestricted` buckets
together are a permutation of the normalized input, occurrences
included, as the repeated-email example shows. -/
theorem validateEmailBatch_spec :
    (∀ (emails : EmailsInput) (d : List (List Char)),
      (validateEmailBatch emails d).invalid = []) ∧
    (∀ (emails : EmailsInput) (d : List (List Char)),
      ((validateEmailBatch emails d).valid ++
        (validateEmailBatch emails d).domainRestricted).Perm
        (normalizeEmails emails)) ∧
    (validateEmailBatch
        (EmailsInput.ofString (String.toList "a@x.com,a@x.com")) []).valid
      = [String.toList "a@x.com", String.toList "a@x.com"] := by
  refine ⟨?_, ?_, by decide⟩
  · intro emails d
    exact classifyBatch_invalid_nil d (normalizeEmails emails)
      (normalizeEmails_all_valid emails)
  · intro emails d
    have hp := classifyBatch_perm d (normalizeEmails emails)
    rw [classifyBatch_invalid_nil d (normalizeEmails emails)
      (normalizeEmails_all_valid emails), List.append_nil] at hp
    exact hp

end ProjMgmt
